import Mathlib

/-!
Verification development for the `domainbl` check of the maddy mail server
fork (package `internal/check/domainbl`): the domain normalizer
(`cleanupDomains`), the per-job DNSBL lookup (`lookupDomainBL`), the bounded
concurrent lookup engine (`lookupDomainBLs`) and the score/policy decision in
`state.CheckBody`.

The Go code is shallowly embedded: pure functions become Lean functions,
machine bytes become `Nat` with explicit bounds where overflow matters,
fallible operations return `Option`/`Except`, and the engine's concurrency is
reduced to its deterministic denotation (job dispatch list plus aggregation
of the per-job results), with result-arrival reordering modelled explicitly
as list permutation.

External collaborators (the Go standard library's `net.ParseIP` and the DNS
resolver interface, and the `publicsuffix` library) are not part of the
repository; `net.ParseIP` is modelled faithfully from its documented
behaviour, the resolver and the public-suffix function are abstract
parameters.
-/

namespace Domainbl

/-- Errors visible to the lookup code: Go's `*net.DNSError` (of which only the
`IsNotFound` flag is inspected by the source) and plain `errors.New`-style
errors such as `errBadBLResponse`. -/
inductive GoError where
  | dnsError (isNotFound : Bool) (msg : String)
  | errorString (msg : String)
deriving DecidableEq, Repr

/-- The `ok && e.IsNotFound` test of `lookupDomainBL`: true exactly when the
error is a `*net.DNSError` whose `IsNotFound` flag is set. -/
def GoError.isNotFoundDNS : GoError → Bool
  | .dnsError found _ => found
  | .errorString _ => false

/-- The string produced by formatting the error with `%v` (its `Error()`
message). -/
def GoError.message : GoError → String
  | .dnsError _ m => m
  | .errorString m => m

/-- Source: `var errBadBLResponse = errors.New("bad response from BL")`. -/
def errBadBLResponse : GoError := .errorString "bad response from BL"

/-- One blocklist entry. Source type `List` in `domainbl.go` (renamed here
because `List` is taken by the Lean core type): DNS zone, response bit mask
(a Go `byte`), and score adjustment (a Go `int`). -/
structure ListCfg where
  Zone : String
  Bits : Nat
  ScoreAdj : Int
deriving DecidableEq, Repr

/-- The single resolver operation the engine depends on:
`LookupHost(ctx, host) → (addrs, error)`. -/
abbrev Resolver := String → Except GoError (List String)

/-! ### Model of Go `net.ParseIP`

Translated from the Go standard library (`net/ip.go`, `net/parse.go`):
`dtoi`, `parseIPv4`, `xtoi`, `parseIPv6`, with `ParseIP` dispatching on the
first `.` or `:` byte of the string. `ParseIP` always yields the 16-byte
representation (IPv4 results are widened with the `::ffff:` mapping), so an
IP is modelled as a list of 16 byte values. -/

/-- Decimal scan from the front of the string: value, characters consumed,
success flag (Go `dtoi`, with `big = 0xFFFFFF`). -/
def dtoiAux : List Char → Nat → Nat → Nat × Nat × Bool
  | [], n, i => if i = 0 then (0, 0, false) else (n, i, true)
  | ch :: rest, n, i =>
    if '0' ≤ ch ∧ ch ≤ '9' then
      let n2 := n * 10 + (ch.toNat - 48)
      if n2 ≥ 16777215 then (16777215, i, false)
      else dtoiAux rest n2 (i + 1)
    else if i = 0 then (0, 0, false) else (n, i, true)

/-- Go `dtoi`. -/
def dtoi (s : List Char) : Nat × Nat × Bool := dtoiAux s 0 0

/-- One dotted-quad field: at most 255, rejecting a leading zero on a
multi-digit field (Go `parseIPv4` field step). Returns the value and the
unconsumed remainder. -/
def parseV4Field (s : List Char) : Option (Nat × List Char) :=
  match dtoi s with
  | (n, c, ok) =>
    if !ok ∨ n > 255 then none
    else if c > 1 ∧ s.headD ' ' = '0' then none
    else some (n, s.drop c)

/-- The remaining `k` fields of a dotted quad, each preceded by a `.`. -/
def parseV4Rest : Nat → List Char → Option (List Nat × List Char)
  | 0, s => some ([], s)
  | k + 1, s =>
    match s with
    | '.' :: s1 =>
      match parseV4Field s1 with
      | some (n, s2) =>
        match parseV4Rest k s2 with
        | some (ns, s3) => some (n :: ns, s3)
        | none => none
      | none => none
    | _ => none

/-- Go `parseIPv4`: four `.`-separated decimal fields consuming the whole
string. -/
def parseIPv4 (s : List Char) : Option (Nat × Nat × Nat × Nat) :=
  match parseV4Field s with
  | none => none
  | some (a, s1) =>
    match parseV4Rest 3 s1 with
    | some ([b, c, d], s2) => if s2.isEmpty then some (a, b, c, d) else none
    | _ => none

/-- Hexadecimal digit value, if any. -/
def hexDigitVal (ch : Char) : Option Nat :=
  if '0' ≤ ch ∧ ch ≤ '9' then some (ch.toNat - 48)
  else if 'a' ≤ ch ∧ ch ≤ 'f' then some (ch.toNat - 97 + 10)
  else if 'A' ≤ ch ∧ ch ≤ 'F' then some (ch.toNat - 65 + 10)
  else none

/-- Hexadecimal scan from the front of the string (Go `xtoi`). -/
def xtoiAux : List Char → Nat → Nat → Nat × Nat × Bool
  | [], n, i => if i = 0 then (0, 0, false) else (n, i, true)
  | ch :: rest, n, i =>
    match hexDigitVal ch with
    | none => if i = 0 then (0, 0, false) else (n, i, true)
    | some v =>
      let n2 := n * 16 + v
      if n2 ≥ 16777215 then (0, i, false)
      else xtoiAux rest n2 (i + 1)

/-- Go `xtoi`. -/
def xtoi (s : List Char) : Nat × Nat × Bool := xtoiAux s 0 0

/-- Append one 16-bit group as its two bytes. -/
def v6Group (acc : List Nat) (n : Nat) : List Nat := acc ++ [n / 256, n % 256]

/-- The group-scanning loop of Go `parseIPv6`: current input, number of bytes
filled so far, position of the `::` ellipsis (if seen) and the bytes filled.
Returns the final state together with the unconsumed input (the caller
performs the `len(s) != 0` check). The fuel only bounds the recursion; 20 is
ample since every iteration adds at least two bytes out of 16. -/
def parseIPv6Loop : Nat → List Char → Nat → Option Nat → List Nat →
    Option (List Nat × Nat × Option Nat × List Char)
  | 0, _, _, _, _ => none
  | fuel + 1, s, i, ell, acc =>
    if i ≥ 16 then some (acc, i, ell, s)
    else
      match xtoi s with
      | (n, c, ok) =>
        if !ok ∨ n > 65535 then none
        else if c < s.length ∧ s.getD c ' ' = '.' then
          if (ell.isNone ∧ i ≠ 12) ∨ i + 4 > 16 then none
          else
            match parseIPv4 s with
            | none => none
            | some (a, b, c4, d) => some (acc ++ [a, b, c4, d], i + 4, ell, [])
        else
          let acc1 := v6Group acc n
          let i1 := i + 2
          let s1 := s.drop c
          if s1.isEmpty then some (acc1, i1, ell, [])
          else if s1.headD ' ' ≠ ':' ∨ s1.length = 1 then none
          else
            let s2 := s1.drop 1
            if s2.headD ' ' = ':' then
              if ell.isSome then none
              else
                let s3 := s2.drop 1
                if s3.isEmpty then some (acc1, i1, some i1, [])
                else parseIPv6Loop fuel s3 i1 (some i1) acc1
            else parseIPv6Loop fuel s2 i1 ell acc1

/-- Go `parseIPv6`: the leading `::` special case, the group loop, and the
final ellipsis expansion to 16 bytes. -/
def parseIPv6 (s : List Char) : Option (List Nat) :=
  let startEll : Option Nat × List Char :=
    match s with
    | ':' :: ':' :: rest => (some 0, rest)
    | _ => (none, s)
  if startEll.1.isSome ∧ startEll.2.isEmpty then some (List.replicate 16 0)
  else
    match parseIPv6Loop 20 startEll.2 0 startEll.1 [] with
    | none => none
    | some (acc, i, ell, rest) =>
      if !rest.isEmpty then none
      else if i < 16 then
        match ell with
        | none => none
        | some e => some (acc.take e ++ List.replicate (16 - i) 0 ++ acc.drop e)
      else if ell.isSome then none
      else some acc

/-- The part of the string before the last `%` (Go `splitHostZone`; `ParseIP`
parses the host part and ignores the zone). -/
def splitHostZone (s : List Char) : List Char :=
  if s.contains '%' then ((s.reverse.dropWhile (fun ch => ch ≠ '%')).drop 1).reverse
  else s

/-- The 16-byte IPv4-mapped form `::ffff:a.b.c.d` produced by Go `IPv4()`. -/
def v4InV6 : Nat × Nat × Nat × Nat → List Nat
  | (a, b, c, d) => [0, 0, 0, 0, 0, 0, 0, 0, 0, 0, 255, 255, a, b, c, d]

/-- Go `net.ParseIP` on the character list: dispatch on the first `.` or `:`
encountered. -/
def parseIPChars (s : List Char) : Option (List Nat) :=
  match s.find? (fun ch => ch == '.' || ch == ':') with
  | some '.' => (parseIPv4 s).map v4InV6
  | some ':' => parseIPv6 (splitHostZone s)
  | _ => none

/-- Go `net.ParseIP`. -/
def parseIP (s : String) : Option (List Nat) := parseIPChars s.toList

/-- Go `IP.To4` on the 16-byte representation delivered by `ParseIP`:
defined exactly on IPv4-mapped addresses, yielding the four octets. -/
def to4 : List Nat → Option (Nat × Nat × Nat × Nat)
  | [0, 0, 0, 0, 0, 0, 0, 0, 0, 0, 255, 255, a, b, c, d] => some (a, b, c, d)
  | _ => none

/-- Go `IP.String` on a 4-byte IP: the dotted quad in decimal. -/
def v4String (a b c d : Nat) : String :=
  toString a ++ "." ++ toString b ++ "." ++ toString c ++ "." ++ toString d

/-! ### Per-job lookup: `lookupDomainBL` (lookup.go, lines 44-75) -/

/-- Outcome of one `lookupDomainBL` call: the Go `(int, error)` pair, with the
error cases split out (the source always pairs a non-nil error with score 0),
plus the run-time panic raised by `ip.To4()[3]` when `To4` returns nil. -/
inductive LookupOut where
  | ok (score : Int)
  | err (e : GoError)
  | panicked (msg : String)
deriving DecidableEq, Repr

/-- The inner bit loop of `lookupDomainBL`: for `bit` in `0..7`,
`n := 1 << bit`; a match requires `Bits & n != 0` and `res & n != 0`. -/
def bitsMatchLoop (bits res : Nat) : Bool :=
  (List.range 8).any (fun bit =>
    ((bits &&& (1 <<< bit)) != 0) && ((res &&& (1 <<< bit)) != 0))

/-- The `for _, addr := range addrs` loop of `lookupDomainBL`: an unparsable
address yields `errBadBLResponse`; a parsed non-IPv4 address makes
`ip.To4()[3]` index a nil slice (a Go run-time panic); otherwise the last
octet is matched against the entry's bit mask, returning `ScoreAdj` on the
first hit and falling through to the next address otherwise. -/
def scanAddrs (bl : ListCfg) : List String → LookupOut
  | [] => .ok 0
  | addr :: rest =>
    match parseIP addr with
    | none => .err errBadBLResponse
    | some ip =>
      match to4 ip with
      | none => .panicked "runtime error: index out of range [3] with length 0"
      | some (_, _, _, res) =>
        if bitsMatchLoop bl.Bits res then .ok bl.ScoreAdj else scanAddrs bl rest

/-- Source `lookupDomainBL`: query `domain + "." + bl.Zone`; a not-found DNS
error scores 0 with no error, any other resolver error is the job's error,
and a successful resolution is scanned address by address. -/
def lookupDomainBL (resolver : Resolver) (domain : String) (bl : ListCfg) :
    LookupOut :=
  match resolver (domain ++ "." ++ bl.Zone) with
  | .error e => if e.isNotFoundDNS then .ok 0 else .err e
  | .ok addrs => scanAddrs bl addrs

/-! ### Domain normalizer: `cleanupDomains` (lookup.go, lines 77-109) -/

/-- The per-element body of the `cleanupDomains` loop, with the external
`publicsuffix.Domain` passed in as `ps` (`none` models its error return):
empty strings are skipped, IPv4 addresses are reversed and reprinted,
parsed non-IPv4 addresses are skipped, and any other string is replaced by
its public-suffix base when that succeeds. -/
def normalizeDomain (ps : String → Option String) (domain : String) :
    Option String :=
  if domain = "" then none
  else
    match parseIP domain with
    | some ip =>
      match to4 ip with
      | none => none
      | some (a, b, c, d) => some (v4String d c b a)
    | none =>
      match ps domain with
      | some base => some base
      | none => some domain

/-- Source `cleanupDomains`: the `unique` map realized as the deduplicated
list of normalized entries (Go map iteration order is unspecified; every
claim about the output is order-agnostic). -/
def cleanupDomains (ps : String → Option String) (domains : List String) :
    List String :=
  (domains.filterMap (normalizeDomain ps)).dedup

/-! ### Concurrent engine: `lookupDomainBLs` (lookup.go, lines 111-193)

The source spawns `min(concurrency, lookups)` worker goroutines, each of
which executes a single `select` — it consumes at most one job from the
unbuffered `lookupC` channel, runs `lookupDomainBL`, sends one `result` on
`resultC` (or, on a recovered panic, stores the panic message directly in the
shared error slot without sending a result) and exits.  The producer then
sends every job on `lookupC` and closes it.  Consequently:

* when the job count is at most the worker count, every job is consumed by a
  distinct worker exactly once, all results reach the aggregator goroutine,
  and the call returns the aggregate;
* when the job count exceeds the worker count, the producer's send of job
  number `workers + 1` blocks forever (no receiver remains), so only the
  first `workers` jobs are ever dispatched and the call never returns.

The model below captures this with `EngineRun`: the list of jobs actually
handed to workers, and `some` aggregate when the call terminates / `none`
for the permanent block.  The caller's context is modelled as never
cancelled.  Results are merged in dispatch order; arrival reordering is
modelled as a permutation of the event list (see the aggregation lemmas). -/

/-- The job producer's nested loop: `for domain { for bl { send } }`. -/
def engineJobs (domains : List String) (bls : List ListCfg) :
    List (String × ListCfg) :=
  domains.flatMap (fun d => bls.map (fun bl => (d, bl)))

/-- The `result` record sent on `resultC`. -/
structure JobResult where
  zone : String
  score : Int
  err : Option GoError
deriving DecidableEq, Repr

/-- What one worker contributes: either a `result` sent on `resultC`, or (for
a recovered panic) a direct write of the panic message into the shared error
slot, with no result sent. -/
inductive WorkerEvent where
  | sent (r : JobResult)
  | workerPanic (msg : String)
deriving DecidableEq, Repr

/-- One worker's handling of one job (the `case job := <-lookupC` branch). -/
def runJob (resolver : Resolver) (job : String × ListCfg) : WorkerEvent :=
  match lookupDomainBL resolver job.1 job.2 with
  | .ok s => .sent ⟨job.2.Zone, s, none⟩
  | .err e => .sent ⟨job.2.Zone, 0, some e⟩
  | .panicked m => .workerPanic m

/-- The aggregator's mutable state: running score, hit list, error slot. -/
structure AggState where
  score : Int
  hits : List String
  err : Option String
deriving DecidableEq, Repr

/-- The aggregator goroutine's treatment of one received `result`: an error
overwrites the error slot (rendered as `zone ++ ": " ++ message`, Go's
`fmt.Errorf("%s: %v", ...)`), and a non-zero score is added and its zone
appended to the hit list. -/
def aggStep (st : AggState) (r : JobResult) : AggState :=
  let e :=
    match r.err with
    | some ge => some (r.zone ++ ": " ++ ge.message)
    | none => st.err
  if r.score ≠ 0 then ⟨st.score + r.score, st.hits ++ [r.zone], e⟩
  else ⟨st.score, st.hits, e⟩

/-- One merged worker event: a sent result goes through the aggregator; a
recovered worker panic writes the error slot directly. -/
def engineStep (st : AggState) (ev : WorkerEvent) : AggState :=
  match ev with
  | .sent r => aggStep st r
  | .workerPanic m => ⟨st.score, st.hits, some m⟩

/-- Merging a whole event sequence, starting from `(0, nil, nil)`. -/
def aggregate (evs : List WorkerEvent) : AggState :=
  evs.foldl engineStep ⟨0, [], none⟩

/-- Observable behaviour of one `lookupDomainBLs` call: which jobs were
received by workers, and — when the call returns — the returned
`(score, hits, err)` triple (`none` = the call blocks forever). -/
structure EngineRun where
  dispatched : List (String × ListCfg)
  outcome : Option (Int × List String × Option String)
deriving DecidableEq, Repr

/-- Source `lookupDomainBLs` (with the external `publicsuffix.Domain` as
`ps`): normalize the domains, cap the worker count at the job count, and run
the pool as described above. -/
def lookupDomainBLs (ps : String → Option String) (resolver : Resolver)
    (domains : List String) (bls : List ListCfg) (concurrency : Nat) :
    EngineRun :=
  let ds := cleanupDomains ps domains
  let lookups := ds.length * bls.length
  let workers := if concurrency > lookups then lookups else concurrency
  let jobs := engineJobs ds bls
  if lookups ≤ workers then
    let st := aggregate (jobs.map (runJob resolver))
    ⟨jobs, some (st.score, st.hits, st.err)⟩
  else
    ⟨jobs.take workers, none⟩

/-! ### Policy decision: `state.CheckBody` (domainbl.go, lines 218-244) and
the defaults installed by `Check.Init` (lines 80-103). -/

/-- The three possible dispositions of the threshold comparison. -/
inductive Action where
  | reject
  | quarantine
  | allow
deriving DecidableEq, Repr

/-- The threshold comparison of `state.CheckBody`: reject first, then
quarantine, else allow. -/
def checkBodyAction (score rejectThres quarantineThres : Int) : Action :=
  if score ≥ rejectThres then .reject
  else if score ≥ quarantineThres then .quarantine
  else .allow

/-- Default for `quarantine_threshold` in `Check.Init`. -/
def defaultQuarantineThreshold : Int := 1

/-- Default for `reject_threshold` in `Check.Init`. -/
def defaultRejectThreshold : Int := 9999

/-! ### Go slice semantics for the in-place rewrite in `cleanupDomains`
(lookup.go, lines 103-108: `domains = domains[:0]` followed by appends). -/

/-- A Go slice over a backing array: the array's contents (its capacity is
`arr.length`) and the slice length. -/
structure GoSlice where
  arr : List String
  len : Nat
deriving DecidableEq, Repr

/-- The elements visible through the slice header. -/
def GoSlice.view (s : GoSlice) : List String := s.arr.take s.len

/-- Go `append`: writes in place while within capacity, otherwise allocates a
fresh array holding the old visible elements plus the new one. -/
def goAppend (s : GoSlice) (x : String) : GoSlice :=
  if s.len < s.arr.length then ⟨s.arr.set s.len x, s.len + 1⟩
  else ⟨s.arr.take s.len ++ [x], s.len + 1⟩

/-- The tail of `cleanupDomains` at the slice level: truncate the caller's
slice to length zero (same backing array) and append every element of the
unique set. -/
def cleanupDomainsSlice (ps : String → Option String) (s : GoSlice) : GoSlice :=
  (cleanupDomains ps s.view).foldl goAppend ⟨s.arr, 0⟩

/-! ### Aggregation lemmas

Projections of a single worker event, and closed forms for folding the
aggregator over an event sequence. -/

/-- The error (if any) this event writes into the shared error slot, rendered
as the aggregator renders it. -/
def eventError : WorkerEvent → Option String
  | .sent r => r.err.map (fun ge => r.zone ++ ": " ++ ge.message)
  | .workerPanic m => some m

/-- The score this event adds to the running total. -/
def eventScore : WorkerEvent → Int
  | .sent r => r.score
  | .workerPanic _ => 0

/-- The hit-list entry this event appends, if any. -/
def eventHit : WorkerEvent → Option String
  | .sent r => if r.score ≠ 0 then some r.zone else none
  | .workerPanic _ => none

/-- Whether one resolved address scores a hit against the given bit mask:
its parsed IPv4 last octet shares a bit with the mask. -/
def addrHit (bits : Nat) (a : String) : Bool :=
  match (parseIP a).bind to4 with
  | some (_, _, _, res) => bitsMatchLoop bits res
  | none => false

/-- An incoming error overwrites the slot; otherwise the slot is kept. -/
def overwrite (newErr old : Option String) : Option String :=
  match newErr with
  | some e => some e
  | none => old

/-- The evolution of the error slot alone over an event sequence. -/
def errSlot (evs : List WorkerEvent) (d : Option String) : Option String :=
  evs.foldl (fun acc ev => overwrite (eventError ev) acc) d

/-- One merged event, expressed through the three projections. -/
theorem engineStep_eq (st : AggState) (ev : WorkerEvent) :
    engineStep st ev =
      ⟨st.score + eventScore ev, st.hits ++ (eventHit ev).toList,
        overwrite (eventError ev) st.err⟩ := by
  cases ev with
  | workerPanic m => simp [engineStep, eventScore, eventHit, eventError, overwrite]
  | sent r =>
    cases r with
    | mk zone score err =>
      cases err with
      | none =>
        by_cases h : score ≠ 0 <;>
          simp_all [engineStep, aggStep, eventScore, eventHit, eventError, overwrite]
      | some ge =>
        by_cases h : score ≠ 0 <;>
          simp_all [engineStep, aggStep, eventScore, eventHit, eventError, overwrite]

/-- Closed form for folding the aggregator over an event list: the score is
the sum of the event scores, the hit list is the concatenation of the event
hits, and the error slot evolves by last-write-wins. -/
theorem foldl_engineStep (evs : List WorkerEvent) (st : AggState) :
    evs.foldl engineStep st =
      ⟨st.score + (evs.map eventScore).sum, st.hits ++ evs.filterMap eventHit,
        errSlot evs st.err⟩ := by
  induction evs generalizing st with
  | nil => simp [errSlot]
  | cons ev rest ih =>
    rw [List.foldl_cons, ih, engineStep_eq]
    simp only [AggState.mk.injEq]
    refine ⟨?_, ?_, ?_⟩
    · simp [add_assoc]
    · cases h : eventHit ev <;> simp [List.filterMap_cons, h]
    · simp [errSlot]

/-- Closed form of `aggregate`. -/
theorem aggregate_eq (evs : List WorkerEvent) :
    aggregate evs =
      ⟨(evs.map eventScore).sum, evs.filterMap eventHit, errSlot evs none⟩ := by
  rw [aggregate, foldl_engineStep]; simp

/-- An event sequence with no errors leaves the error slot untouched. -/
theorem errSlot_of_no_error (evs : List WorkerEvent) (d : Option String)
    (h : ∀ ev ∈ evs, eventError ev = none) : errSlot evs d = d := by
  induction evs generalizing d with
  | nil => rfl
  | cons ev rest ih =>
    have h0 : eventError ev = none := h ev (by simp)
    rw [errSlot, List.foldl_cons, h0]
    exact ih _ (fun x hx => h x (by simp [hx]))

/-- The final event sequence error is the last event error written. -/
theorem errSlot_append_error (evs : List WorkerEvent) (ev : WorkerEvent)
    (e : String) (d : Option String) (h : eventError ev = some e) :
    errSlot (evs ++ [ev]) d = some e := by
  simp [errSlot, List.foldl_append, h, overwrite]

/-- Termination of the engine: whenever the job count is at most the
requested concurrency, every job is dispatched (in producer order) and the
call returns the aggregate of all job results. -/
theorem lookupDomainBLs_terminating (ps : String → Option String)
    (resolver : Resolver) (domains : List String) (bls : List ListCfg)
    (c : Nat)
    (h : (cleanupDomains ps domains).length * bls.length ≤ c) :
    lookupDomainBLs ps resolver domains bls c =
      ⟨engineJobs (cleanupDomains ps domains) bls,
        some
          ((aggregate ((engineJobs (cleanupDomains ps domains) bls).map
              (runJob resolver))).score,
           (aggregate ((engineJobs (cleanupDomains ps domains) bls).map
              (runJob resolver))).hits,
           (aggregate ((engineJobs (cleanupDomains ps domains) bls).map
              (runJob resolver))).err)⟩ := by
  have hw : (cleanupDomains ps domains).length * bls.length ≤
      (if c > (cleanupDomains ps domains).length * bls.length then
        (cleanupDomains ps domains).length * bls.length else c) := by
    split <;> omega
  simp only [lookupDomainBLs]
  rw [if_pos hw]

/-- A masked bit test on one bit position, related to `Nat.testBit`. -/
theorem land_shift_ne_zero (n bit : Nat) :
    (n &&& (1 <<< bit) ≠ 0) ↔ n.testBit bit = true := by
  rw [Nat.shiftLeft_eq, one_mul, Nat.and_two_pow]
  cases h : n.testBit bit <;> simp [h, (Nat.two_pow_pos bit).ne']

/-- The source's 8-position bit loop succeeds exactly when the mask and the
response octet share a set bit among positions 0..7. -/
theorem bitsMatchLoop_iff (bits res : Nat) :
    bitsMatchLoop bits res = true ↔
      ∃ bit, bit < 8 ∧ bits.testBit bit = true ∧ res.testBit bit = true := by
  rw [bitsMatchLoop, List.any_eq_true]
  constructor
  · rintro ⟨bit, hmem, hp⟩
    rw [List.mem_range] at hmem
    rw [Bool.and_eq_true, bne_iff_ne, bne_iff_ne] at hp
    exact ⟨bit, hmem, (land_shift_ne_zero bits bit).mp hp.1,
      (land_shift_ne_zero res bit).mp hp.2⟩
  · rintro ⟨bit, hbit, h1, h2⟩
    refine ⟨bit, List.mem_range.mpr hbit, ?_⟩
    rw [Bool.and_eq_true, bne_iff_ne, bne_iff_ne]
    exact ⟨(land_shift_ne_zero bits bit).mpr h1, (land_shift_ne_zero res bit).mpr h2⟩

/-- The address scan on an all-IPv4 response: the job scores the single
configured weight exactly when some address hits the mask, and zero
otherwise — never a multiple of the weight. -/
theorem scanAddrs_all_v4 (bl : ListCfg) (addrs : List String)
    (hv4 : ∀ a ∈ addrs, ((parseIP a).bind to4).isSome = true) :
    scanAddrs bl addrs =
      .ok (if addrs.any (addrHit bl.Bits) then bl.ScoreAdj else 0) := by
  induction addrs with
  | nil => rfl
  | cons a rest ih =>
    have ha : ((parseIP a).bind to4).isSome = true := hv4 a (List.mem_cons_self a rest)
    obtain ⟨⟨a1, b1, c1, res⟩, hq⟩ := Option.isSome_iff_exists.mp ha
    obtain ⟨ip, hip, hip4⟩ := Option.bind_eq_some.mp hq
    have hhit : addrHit bl.Bits a = bitsMatchLoop bl.Bits res := by
      rw [addrHit, hq]
    have hscan : scanAddrs bl (a :: rest) =
        if bitsMatchLoop bl.Bits res then .ok bl.ScoreAdj else scanAddrs bl rest := by
      simp [scanAddrs, hip, hip4]
    rw [hscan, List.any_cons, hhit]
    cases h : bitsMatchLoop bl.Bits res with
    | true => simp
    | false =>
      simp only [Bool.false_or, if_false]
      exact ih (fun x hx => hv4 x (List.mem_cons_of_mem a hx))

/-- Appending within capacity writes the elements into the backing array in
place, leaving the remainder of the array untouched. -/
theorem foldl_goAppend_in_place (elems : List String) :
    ∀ (arr : List String) (k : Nat), k + elems.length ≤ arr.length →
      elems.foldl goAppend ⟨arr, k⟩ =
        ⟨arr.take k ++ elems ++ arr.drop (k + elems.length), k + elems.length⟩ := by
  induction elems with
  | nil => intro arr k h; simp [List.take_append_drop]
  | cons x xs ih =>
    intro arr k h
    rw [List.length_cons] at h
    have hk : k < arr.length := by omega
    have hgo : goAppend ⟨arr, k⟩ x = ⟨arr.set k x, k + 1⟩ := by
      rw [goAppend]; exact if_pos hk
    rw [List.foldl_cons, hgo,
      ih (arr.set k x) (k + 1) (by rw [List.length_set]; omega)]
    simp only [GoSlice.mk.injEq]
    constructor
    · have hset : arr.set k x = arr.take k ++ x :: arr.drop (k + 1) :=
        List.set_eq_take_cons_drop x hk
      have htake : (arr.set k x).take (k + 1) = arr.take k ++ [x] := by
        rw [hset, List.take_append_eq_append_take]
        have hlt : (arr.take k).length = k := List.length_take_of_le hk.le
        rw [hlt]
        have h1 : (arr.take k).take (k + 1) = arr.take k := by
          rw [List.take_take]; congr 1; omega
        have h2 : k + 1 - k = 1 := by omega
        rw [h1, h2]
        rfl
      have hdrop : (arr.set k x).drop (k + 1 + xs.length) =
          arr.drop (k + 1 + xs.length) := by
        rw [List.drop_set_of_lt]; omega
      rw [htake, hdrop]
      have harith : k + 1 + xs.length = k + (xs.length + 1) := by omega
      rw [harith]
      simp [List.append_assoc]
    · simp only [List.length_cons]; omega

/-! ### Claim theorems -/

/-- C1 (code bug): the claim says an error-free, uncancelled call dispatches
exactly `|domains| times |entries|` lookups and returns after aggregating all
of them — but each worker goroutine consumes exactly one job, so with nine
jobs and concurrency 8 the producer blocks forever on job nine: only eight
lookups are dispatched and the call never returns. -/
theorem c1_nine_jobs_deadlock :
    (lookupDomainBLs (fun _ => none) (fun _ => .error (.dnsError true "no such host"))
        ["d.example"] ((List.range 9).map (fun i => ⟨"z" ++ toString i, 128, 1⟩)) 8).outcome
      = none ∧
    (lookupDomainBLs (fun _ => none) (fun _ => .error (.dnsError true "no such host"))
        ["d.example"] ((List.range 9).map (fun i => ⟨"z" ++ toString i, 128, 1⟩)) 8).dispatched.length
      = 8 ∧
    (cleanupDomains (fun _ => none) ["d.example"]).length *
        ((List.range 9).map (fun i => (⟨"z" ++ toString i, 128, 1⟩ : ListCfg))).length = 9 :=
  ⟨rfl, rfl, rfl⟩

/-- C2 counterexample: in a two-job run where both jobs fail, the first
error encountered (in merge order) is the `z1` job's, but the engine returns
the `z2` job's error — the claim "the first error wins" is false on this
input. -/
theorem c2_counterexample_first_error_not_returned :
    ((((engineJobs (cleanupDomains (fun _ => none) ["d.example"])
          [⟨"z1", 0, 1⟩, ⟨"z2", 0, 1⟩]).map
            (runJob (fun h => .error (.dnsError false h)))).filterMap eventError).head?
        = some "z1: d.example.z1") ∧
    (lookupDomainBLs (fun _ => none) (fun h => .error (.dnsError false h))
        ["d.example"] [⟨"z1", 0, 1⟩, ⟨"z2", 0, 1⟩] 8).outcome
      = some (0, [], some "z2: d.example.z2") ∧
    ("z2: d.example.z2" : String) ≠ "z1: d.example.z1" := by
  refine ⟨rfl, rfl, by decide⟩

/-- C2 (amended): when more than one job of an invocation fails, each job
error overwrites the previously recorded one, so the engine returns the LAST
error merged by the aggregator: for any terminating run whose job sequence
ends in a job carrying error message `e`, the returned error is `some e`,
whatever the earlier jobs produced. -/
theorem c2_last_error_wins (ps : String → Option String) (resolver : Resolver)
    (domains : List String) (bls : List ListCfg) (c : Nat)
    (js : List (String × ListCfg)) (j : String × ListCfg) (e : String)
    (hterm : (cleanupDomains ps domains).length * bls.length ≤ c)
    (hjobs : engineJobs (cleanupDomains ps domains) bls = js ++ [j])
    (herr : eventError (runJob resolver j) = some e) :
    ((lookupDomainBLs ps resolver domains bls c).outcome).map (fun t => t.2.2)
      = some (some e) := by
  rw [lookupDomainBLs_terminating ps resolver domains bls c hterm]
  have hagg : (aggregate ((engineJobs (cleanupDomains ps domains) bls).map
      (runJob resolver))).err = some e := by
    rw [aggregate_eq]
    show errSlot _ none = some e
    rw [hjobs, List.map_append]
    simp only [List.map_cons, List.map_nil]
    exact errSlot_append_error _ _ _ _ herr
  simp [hagg]

/-- C2 witness: the amended statement at the concrete two-error run. -/
theorem c2_witness :
    ((lookupDomainBLs (fun _ => none) (fun h => .error (.dnsError false h))
        ["d.example"] [⟨"z1", 0, 1⟩, ⟨"z2", 0, 1⟩] 8).outcome).map (fun t => t.2.2)
      = some (some "z2: d.example.z2") :=
  c2_last_error_wins (fun _ => none) (fun h => .error (.dnsError false h))
    ["d.example"] [⟨"z1", 0, 1⟩, ⟨"z2", 0, 1⟩] 8
    [("d.example", ⟨"z1", 0, 1⟩)] ("d.example", ⟨"z2", 0, 1⟩) "z2: d.example.z2"
    (by decide) (by decide) (by decide)

/-- C3: on a successful resolution whose addresses all parse as IPv4, the
job returns the entry's single configured score weight exactly when some
address's last octet shares a set bit with the entry's mask (and zero
otherwise), and the bit loop succeeds exactly when one of the 8 bit
positions is set in both mask and octet. -/
theorem c3_score_iff_shared_bit (resolver : Resolver) (domain : String)
    (bl : ListCfg) (addrs : List String)
    (hres : resolver (domain ++ "." ++ bl.Zone) = .ok addrs)
    (hv4 : ∀ a ∈ addrs, ((parseIP a).bind to4).isSome = true) :
    lookupDomainBL resolver domain bl =
      .ok (if addrs.any (addrHit bl.Bits) then bl.ScoreAdj else 0) ∧
    (∀ bits res : Nat, bitsMatchLoop bits res = true ↔
      ∃ bit, bit < 8 ∧ bits.testBit bit = true ∧ res.testBit bit = true) := by
  refine ⟨?_, fun bits res => bitsMatchLoop_iff bits res⟩
  simp only [lookupDomainBL, hres]
  exact scanAddrs_all_v4 bl addrs hv4

/-- C3 witness: with bit mask 128, a response `127.0.0.254` scores the
weight 1 and a response `127.0.0.64` scores zero. -/
theorem c3_witness :
    lookupDomainBL (fun _ => .ok ["127.0.0.254"]) "spammer.example"
      ⟨"bl.example", 128, 1⟩ = .ok 1 ∧
    lookupDomainBL (fun _ => .ok ["127.0.0.64"]) "spammer.example"
      ⟨"bl.example", 128, 1⟩ = .ok 0 := by
  constructor
  · exact (c3_score_iff_shared_bit (fun _ => .ok ["127.0.0.254"]) "spammer.example"
      ⟨"bl.example", 128, 1⟩ ["127.0.0.254"] rfl (by decide)).1.trans (by decide)
  · exact (c3_score_iff_shared_bit (fun _ => .ok ["127.0.0.64"]) "spammer.example"
      ⟨"bl.example", 128, 1⟩ ["127.0.0.64"] rfl (by decide)).1.trans (by decide)

/-- C4 (code bug): a resolver response containing a valid IPv6 address makes
`lookupDomainBL` panic at `ip.To4()[3]` (nil-slice index) instead of
returning the malformed-response job error that the claim requires; only a
syntactically malformed address string yields `errBadBLResponse`. -/
theorem c4_ipv6_response_panics :
    lookupDomainBL (fun _ => .ok ["2001:db8::1"]) "spammer.example"
      ⟨"bl.example", 128, 1⟩
      = .panicked "runtime error: index out of range [3] with length 0" ∧
    lookupDomainBL (fun _ => .ok ["not-an-ip"]) "spammer.example"
      ⟨"bl.example", 128, 1⟩ = .err errBadBLResponse ∧
    LookupOut.panicked "runtime error: index out of range [3] with length 0"
      ≠ .err errBadBLResponse := by
  refine ⟨rfl, rfl, by decide⟩

/-- C5: a single-job lookup consults the resolver only at the hostname
`domain ++ "." ++ zone` (two resolvers agreeing there give identical
results); a not-found DNS failure yields score 0 with no error, and any
other resolver error is returned as the job's error. -/
theorem c5_query_host_and_error_policy (r1 r2 : Resolver) (domain : String)
    (bl : ListCfg) (e : GoError) :
    (r1 (domain ++ "." ++ bl.Zone) = r2 (domain ++ "." ++ bl.Zone) →
      lookupDomainBL r1 domain bl = lookupDomainBL r2 domain bl) ∧
    (r1 (domain ++ "." ++ bl.Zone) = .error e →
      (e.isNotFoundDNS = true → lookupDomainBL r1 domain bl = .ok 0) ∧
      (e.isNotFoundDNS = false → lookupDomainBL r1 domain bl = .err e)) := by
  refine ⟨fun h => by simp only [lookupDomainBL, h],
    fun h => ⟨fun hnf => ?_, fun hnf => ?_⟩⟩ <;>
    simp [lookupDomainBL, h, hnf]

/-- C5 witness: a not-found resolution scores zero without error, a
temporary DNS failure is returned as the job error. -/
theorem c5_witness :
    lookupDomainBL (fun _ => .error (.dnsError true "no such host"))
      "goodguy.example" ⟨"bl.example", 128, 1⟩ = .ok 0 ∧
    lookupDomainBL (fun _ => .error (.dnsError false "i/o timeout"))
      "failure.example" ⟨"bl.example", 128, 1⟩
      = .err (.dnsError false "i/o timeout") :=
  ⟨((c5_query_host_and_error_policy (fun _ => .error (.dnsError true "no such host"))
      (fun _ => .error (.dnsError true "no such host")) "goodguy.example"
      ⟨"bl.example", 128, 1⟩ (.dnsError true "no such host")).2 rfl).1 rfl,
   ((c5_query_host_and_error_policy (fun _ => .error (.dnsError false "i/o timeout"))
      (fun _ => .error (.dnsError false "i/o timeout")) "failure.example"
      ⟨"bl.example", 128, 1⟩ (.dnsError false "i/o timeout")).2 rfl).2 rfl⟩

/-- C6: normalization output membership is exactly the image of
`normalizeDomain` over the input (IPv4 reversed, IPv6 and empty strings
dropped, other strings reduced to their public-suffix base or kept when that
fails), the output has no duplicates, and the concrete normalization facts
of the claim hold. -/
theorem c6_cleanup_normalization (ps : String → Option String)
    (domains : List String) (x d : String) :
    (x ∈ cleanupDomains ps domains ↔
      ∃ d0 ∈ domains, normalizeDomain ps d0 = some x) ∧
    (cleanupDomains ps domains).Nodup ∧
    cleanupDomains ps ["1.2.3.4", "", "::1", "1.2.3.4"] = ["4.3.2.1"] ∧
    (parseIP d = none → d ≠ "" → normalizeDomain ps d = some ((ps d).getD d)) := by
  refine ⟨?_, List.nodup_dedup _, rfl, fun hp hne => ?_⟩
  · rw [cleanupDomains, List.mem_dedup, List.mem_filterMap]
  · simp only [normalizeDomain, if_neg hne, hp]
    cases hpd : ps d <;> simp [hpd]

/-- C6 witness: suffix resolution failure keeps the string unchanged. -/
theorem c6_witness :
    cleanupDomains (fun _ => none) ["1.2.3.4", "", "::1", "1.2.3.4"] = ["4.3.2.1"] ∧
    normalizeDomain (fun _ => none) "example.org" = some "example.org" := by
  have h := c6_cleanup_normalization (fun _ => none) [] "" "example.org"
  exact ⟨h.2.2.1, (h.2.2.2 (by decide) (by decide)).trans (by decide)⟩

/-- C7: the policy decision rejects when the score meets the reject
threshold, else quarantines when it meets the quarantine threshold, else
allows; reject is checked first, and the configured defaults are quarantine
threshold 1 and reject threshold 9999. -/
theorem c7_policy_reject_first (score r q : Int) :
    (score ≥ r → checkBodyAction score r q = .reject) ∧
    (score < r → score ≥ q → checkBodyAction score r q = .quarantine) ∧
    (score < r → score < q → checkBodyAction score r q = .allow) ∧
    defaultQuarantineThreshold = 1 ∧ defaultRejectThreshold = 9999 := by
  refine ⟨fun h => ?_, fun h1 h2 => ?_, fun h1 h2 => ?_, rfl, rfl⟩
  · rw [checkBodyAction, if_pos h]
  · rw [checkBodyAction, if_neg (by omega), if_pos h2]
  · rw [checkBodyAction, if_neg (by omega), if_neg (by omega)]

/-- C7 witness: with both thresholds met and the reject threshold below the
quarantine threshold, the action is reject; the other two branches at
concrete scores. -/
theorem c7_witness :
    checkBodyAction 10 3 5 = .reject ∧ checkBodyAction 5 9 5 = .quarantine ∧
    checkBodyAction 0 9999 1 = .allow :=
  ⟨(c7_policy_reject_first 10 3 5).1 (by decide),
   (c7_policy_reject_first 5 9 5).2.1 (by decide) (by decide),
   (c7_policy_reject_first 0 9999 1).2.2.1 (by decide) (by decide)⟩

/-- C8: with an empty post-normalization domain list or an empty entry list,
the engine dispatches no lookup at all and returns score 0, no hits, no
error, for every resolver and every concurrency ceiling. -/
theorem c8_empty_inputs_no_lookups (ps : String → Option String)
    (resolver : Resolver) (c : Nat) (domains : List String) (bls : List ListCfg)
    (h : cleanupDomains ps domains = [] ∨ bls = []) :
    lookupDomainBLs ps resolver domains bls c = ⟨[], some (0, [], none)⟩ := by
  have hjobs : engineJobs (cleanupDomains ps domains) bls = [] := by
    rcases h with h | h <;> simp [engineJobs, h]
  have hlen : (cleanupDomains ps domains).length * bls.length = 0 := by
    rcases h with h | h <;> simp [h]
  rw [lookupDomainBLs_terminating ps resolver domains bls c (by omega), hjobs]
  rfl

/-- C8 witness: a domain list normalizing to empty, and an empty entry
list, both produce the empty run. -/
theorem c8_witness :
    lookupDomainBLs (fun _ => none) (fun _ => .ok ["127.0.0.2"]) [""]
      [⟨"bl.example", 128, 1⟩] 8 = ⟨[], some (0, [], none)⟩ ∧
    lookupDomainBLs (fun _ => none) (fun _ => .ok ["127.0.0.2"]) ["d.example"]
      [] 3 = ⟨[], some (0, [], none)⟩ :=
  ⟨c8_empty_inputs_no_lookups (fun _ => none) (fun _ => .ok ["127.0.0.2"]) 8 [""]
      [⟨"bl.example", 128, 1⟩] (Or.inl (by decide)),
   c8_empty_inputs_no_lookups (fun _ => none) (fun _ => .ok ["127.0.0.2"]) 3
      ["d.example"] [] (Or.inr rfl)⟩

/-- C9: for a terminating run whose job results are all error-free, merging
the results in ANY arrival order yields the same total score as the engine
returns, a hit list that is a permutation of the returned one, and no
error — the outcome is deterministic up to hit-list order. -/
theorem c9_aggregate_order_invariant (ps : String → Option String)
    (resolver : Resolver) (domains : List String) (bls : List ListCfg) (c : Nat)
    (arrival : List WorkerEvent)
    (hterm : (cleanupDomains ps domains).length * bls.length ≤ c)
    (hperm : arrival.Perm
      ((engineJobs (cleanupDomains ps domains) bls).map (runJob resolver)))
    (hclean : ∀ ev ∈ (engineJobs (cleanupDomains ps domains) bls).map
      (runJob resolver), eventError ev = none) :
    (lookupDomainBLs ps resolver domains bls c).outcome =
      some ((aggregate arrival).score,
        (aggregate ((engineJobs (cleanupDomains ps domains) bls).map
          (runJob resolver))).hits, none) ∧
    ((aggregate arrival).hits).Perm
      ((aggregate ((engineJobs (cleanupDomains ps domains) bls).map
        (runJob resolver))).hits) ∧
    (aggregate arrival).err = none := by
  have hscore : (aggregate arrival).score =
      (aggregate ((engineJobs (cleanupDomains ps domains) bls).map
        (runJob resolver))).score := by
    rw [aggregate_eq, aggregate_eq]
    show (arrival.map eventScore).sum = _
    exact (hperm.map eventScore).sum_eq
  have hhits : ((aggregate arrival).hits).Perm
      ((aggregate ((engineJobs (cleanupDomains ps domains) bls).map
        (runJob resolver))).hits) := by
    rw [aggregate_eq, aggregate_eq]
    exact hperm.filterMap eventHit
  have herrA : (aggregate arrival).err = none := by
    rw [aggregate_eq]
    show errSlot arrival none = none
    exact errSlot_of_no_error _ _ (fun ev hev => hclean ev (hperm.mem_iff.mp hev))
  have herrB : (aggregate ((engineJobs (cleanupDomains ps domains) bls).map
      (runJob resolver))).err = none := by
    rw [aggregate_eq]
    show errSlot _ none = none
    exact errSlot_of_no_error _ _ hclean
  refine ⟨?_, hhits, herrA⟩
  rw [lookupDomainBLs_terminating ps resolver domains bls c hterm, herrB, hscore]

/-- C9 witness: a two-job hit run merged in reversed arrival order returns
the same total score 3. -/
theorem c9_witness :
    (lookupDomainBLs (fun _ => none) (fun _ => .ok ["127.0.0.254"]) ["d.example"]
      [⟨"z1", 128, 1⟩, ⟨"z2", 128, 2⟩] 8).outcome = some (3, ["z1", "z2"], none) := by
  have h := c9_aggregate_order_invariant (fun _ => none)
    (fun _ => .ok ["127.0.0.254"]) ["d.example"] [⟨"z1", 128, 1⟩, ⟨"z2", 128, 2⟩] 8
    [.sent ⟨"z2", 2, none⟩, .sent ⟨"z1", 1, none⟩] (by decide) (by decide) (by decide)
  exact h.1.trans (by decide)

/-- C10: `cleanupDomains` (as invoked by the engine on the caller's slice)
rewrites the caller's backing array in place: the slice is truncated to
length zero and the normalized entries are appended over the original
contents, so after the call the backing array holds the normalized list
followed by the remainder of the old contents, and the result is never
longer than the input. -/
theorem c10_cleanup_rewrites_backing_array (ps : String → Option String)
    (s : GoSlice) (hlen : s.len ≤ s.arr.length) :
    (cleanupDomains ps s.view).length ≤ s.len ∧
    cleanupDomainsSlice ps s =
      ⟨cleanupDomains ps s.view ++ s.arr.drop (cleanupDomains ps s.view).length,
        (cleanupDomains ps s.view).length⟩ ∧
    (cleanupDomainsSlice ps s).arr.length = s.arr.length ∧
    (cleanupDomainsSlice ps s).view = cleanupDomains ps s.view := by
  have hle : (cleanupDomains ps s.view).length ≤ s.len := by
    calc (cleanupDomains ps s.view).length
        ≤ (s.view.filterMap (normalizeDomain ps)).length :=
          (List.dedup_sublist _).length_le
      _ ≤ s.view.length := List.length_filterMap_le _ _
      _ ≤ s.len := by rw [GoSlice.view, List.length_take]; omega
  have heq : cleanupDomainsSlice ps s =
      ⟨cleanupDomains ps s.view ++ s.arr.drop (cleanupDomains ps s.view).length,
        (cleanupDomains ps s.view).length⟩ := by
    rw [cleanupDomainsSlice, foldl_goAppend_in_place _ _ _ (by omega)]
    simp
  refine ⟨hle, heq, ?_, ?_⟩
  · rw [heq]
    simp only [List.length_append, List.length_drop]
    omega
  · rw [heq, GoSlice.view]
    exact List.take_left _ _

/-- C10 witness: the four-element raw list is rewritten in place to the
single normalized entry followed by the surviving old contents. -/
theorem c10_witness :
    cleanupDomainsSlice (fun _ => none) ⟨["1.2.3.4", "", "::1", "1.2.3.4"], 4⟩
      = ⟨["4.3.2.1", "", "::1", "1.2.3.4"], 1⟩ := by
  have h := c10_cleanup_rewrites_backing_array (fun _ => none)
    ⟨["1.2.3.4", "", "::1", "1.2.3.4"], 4⟩ (by decide)
  exact h.2.1.trans (by decide)

end Domainbl
